import Mathlib

/-!
Shallow embedding of the aurabot capture/analyse/store/enhance pipeline.

Each definition is translated from one Go (or Swift) function of the
repository; the file then proves properties of those definitions.
Machine integers are modelled as `Nat`/`Int`, Go `float64` values that
only ever hold scores, ratios and scale factors are modelled as exact
rationals, `time.Time` values as natural-number instants, and fallible
calls (HTTP requests, JSON decoding) as explicit `Except`/`Option`
inputs describing the outcome of the external interaction.
-/

set_option maxRecDepth 4096
set_option linter.unusedVariables false

namespace MemoryStore

/-- Metadata attached to every stored memory
(Go struct `Metadata`, internal/memory & supermemory/internal/memory). -/
structure Metadata where
  timestamp : String
  context : String
  activities : List String
  keyElements : List String
  userIntent : String
  displayNum : Nat
  deriving Repr, DecidableEq

/-- One stored memory (Go struct `Memory`). `createdAt` models `time.Time`
as a natural-number instant. -/
structure Memory where
  id : String
  content : String
  userId : String
  metadata : Metadata
  createdAt : Nat
  deriving Repr, DecidableEq

/-- A memory search result (Go struct `SearchResult`); `score` models the
Go `float64` relevance score as an exact rational. -/
structure SearchResult where
  memory : Memory
  score : ℚ
  distance : ℚ
  deriving Repr, DecidableEq

end MemoryStore

namespace Enhancer

/-- Enhancement result (Go struct `EnhancementResult` in the enhancer package). -/
structure EnhancementResult where
  originalPrompt : String
  enhancedPrompt : String
  memoriesUsed : List String
  enhancementType : String
  deriving Repr, DecidableEq

/-- Enhancer statistics (Go fields `enhancementsMade`, `lastEnhancement`
guarded by `statsMu`); the timestamp is a natural-number instant. -/
structure Stats where
  enhancementsMade : Nat
  lastEnhancement : Nat
  deriving Repr, DecidableEq

/-- The categorisation loop of `Enhancer.Enhance`: one pass over the search
results, in order, appending to `memoriesUsed`, to `highRelevanceMemories`
(score > 0.85), to `contextualMemories` (the rest), and to `memoryContents`
(content prefixed with `[metadata context] ` when that tag is non-empty).
Returns `(memoriesUsed, highRelevanceMemories, contextualMemories,
memoryContents)`. -/
def categorize : List MemoryStore.SearchResult →
    List String × List String × List String × List String
  | [] => ([], [], [], [])
  | r :: rest =>
    let (mu, hi, cx, mc) := categorize rest
    (r.memory.content :: mu,
     if (0.85 : ℚ) < r.score then r.memory.content :: hi else hi,
     if (0.85 : ℚ) < r.score then cx else r.memory.content :: cx,
     (if r.memory.metadata.context ≠ "" then
        "[" ++ r.memory.metadata.context ++ "] " ++ r.memory.content
      else r.memory.content) :: mc)

/-- Go `determineEnhancementType(highRelevance, contextual int, pageContext
string) string`: the four-way relevance rule (the page context is unused by
the source). -/
def determineEnhancementType (highRelevance contextual : Nat)
    (pageContext : String) : String :=
  if 2 ≤ highRelevance then "contextual"
  else if highRelevance = 1 ∧ 2 ≤ contextual then "detailed"
  else if highRelevance = 0 ∧ 0 < contextual then "minimal"
  else "contextual"

/-- One bullet-writing loop of `buildEnhancedPrompt`:
`for i, memory := range ms { write "- {memory}\n"; if i >= stop { break } }`.
The chunk for element `i` is written first and the loop then stops once
`stop ≤ i`. -/
def bulletLoop (stop : Nat) : List String → Nat → List String
  | [], _ => []
  | m :: rest, i =>
    ("- " ++ m ++ "\n") :: (if stop ≤ i then [] else bulletLoop stop rest (i + 1))

/-- Go `buildEnhancedPrompt`: starts from the original prompt and appends
the type-specific appendix built with a `strings.Builder`. -/
def buildEnhancedPrompt (originalPrompt : String)
    (highRelevanceMemories contextualMemories allMemories : List String)
    (enhancementType : String) : String :=
  originalPrompt ++
    (if enhancementType = "contextual" then
      "\n\n[Context from previous sessions]\n" ++
      "Based on my previous activities and context:\n" ++
      String.join (bulletLoop 2 highRelevanceMemories 0) ++
      (if 0 < contextualMemories.length then
        "\nAdditional context:\n" ++ String.join (bulletLoop 1 contextualMemories 0)
      else "")
    else if enhancementType = "detailed" then
      "\n\n[Relevant background]\n" ++ String.join (bulletLoop 3 allMemories 0)
    else if enhancementType = "minimal" then
      (if 0 < allMemories.length then
        "\n\n[Note: Consider previous context: " ++ allMemories.headD "" ++
        (if 1 < allMemories.length then " and related activities" else "") ++ "]"
      else "")
    else "")

/-- Go `Enhancer.Enhance`. The memory search is an external HTTP call, so
its outcome is an explicit argument; `now` is the `time.Now()` instant read
while updating the stats. Returns the result together with the updated
stats, or the wrapped search error. The `maxMemories` argument is forwarded
to the search and not used afterwards, exactly as in the source. -/
def enhance (prompt pageContext : String) (maxMemories : Nat)
    (searchOutcome : Except String (List MemoryStore.SearchResult))
    (stats : Stats) (now : Nat) : Except String (EnhancementResult × Stats) :=
  match searchOutcome with
  | .error e => .error ("memory search failed: " ++ e)
  | .ok results =>
    if results.length = 0 then
      .ok ({ originalPrompt := prompt, enhancedPrompt := prompt,
             memoriesUsed := [], enhancementType := "none" }, stats)
    else
      let (memoriesUsed, highRelevanceMemories, contextualMemories,
           memoryContents) := categorize results
      let enhancementType := determineEnhancementType
        highRelevanceMemories.length contextualMemories.length pageContext
      let enhancedPrompt := buildEnhancedPrompt prompt highRelevanceMemories
        contextualMemories memoryContents enhancementType
      .ok ({ originalPrompt := prompt, enhancedPrompt := enhancedPrompt,
             memoriesUsed := memoriesUsed, enhancementType := enhancementType },
           { enhancementsMade := stats.enhancementsMade + 1,
             lastEnhancement := now })

end Enhancer

/-- A JSON value as produced by Go's `json.Unmarshal` into
`map[string]interface{}` members: strings, numbers, booleans, null,
arrays and nested objects. -/
inductive JVal where
  | str (s : String)
  | num (q : ℚ)
  | boolean (b : Bool)
  | null
  | arr (xs : List JVal)
  | obj (fields : List (String × JVal))

/-- Structured output of the vision client
(Go struct `AnalysisResult`, the same shape in both LLM clients). -/
structure AnalysisResult where
  summary : String
  context : String
  activities : List String
  keyElements : List String
  userIntent : String
  deriving Repr, DecidableEq

namespace LlmClient

/-- Go `(*Client).parseResponse` of `internal/llm/client.go`: always the
sentinel result, with the summary set to the raw assistant text, truncated
to 500 characters plus a trailing ellipsis when it is longer (the Go code
slices bytes; text is modelled as its character list). It never attempts a
JSON parse. -/
def parseResponse (content : String) : AnalysisResult :=
  { summary :=
      if 500 < content.data.length then String.mk (content.data.take 500) ++ "..."
      else content,
    context := "unknown",
    activities := [],
    keyElements := [],
    userIntent := "unknown" }

end LlmClient

namespace SupermemoryClient

/-- Go `(*Client).parseResponse` of the supermemory repository. The call
`json.Unmarshal([]byte(content), &jsonResult)` is an external decoding
step whose outcome is the `unmarshalled` argument: `none` when the text is
not a JSON object (decode error), `some fields` when it decoded into a
`map[string]interface{}`. Starts from the raw content plus sentinels and
copies each recognised field only when the type assertion succeeds:
strings into `summary`/`context`/`userIntent`, arrays filtered to their
string elements into `activities`/`keyElements`. The summary is never
truncated ("Store the full LLM output without truncation"). -/
def parseResponse (content : String)
    (unmarshalled : Option (List (String × JVal))) : AnalysisResult :=
  match unmarshalled with
  | none =>
    { summary := content, context := "unknown", activities := [],
      keyElements := [], userIntent := "unknown" }
  | some fields =>
    { summary :=
        match fields.lookup "summary" with
        | some (.str s) => s
        | _ => content,
      context :=
        match fields.lookup "context" with
        | some (.str s) => s
        | _ => "unknown",
      activities :=
        match fields.lookup "activities" with
        | some (.arr xs) =>
          xs.filterMap (fun v => match v with | .str s => some s | _ => none)
        | _ => [],
      keyElements :=
        match fields.lookup "key_elements" with
        | some (.arr xs) =>
          xs.filterMap (fun v => match v with | .str s => some s | _ => none)
        | _ => [],
      userIntent :=
        match fields.lookup "user_intent" with
        | some (.str s) => s
        | _ => "unknown" }

end SupermemoryClient

namespace Service

/-- One screen capture as consumed by `analyzeAndStore`
(Go struct `Capture` of `internal/capture`): the timestamp is kept in its
RFC3339-formatted form, which is all the service reads of it. -/
structure Capture where
  timestamp : String
  displayNum : Nat
  deriving Repr, DecidableEq

/-- The trace of one `analyzeAndStore` run: the previous-context string
handed to the vision client, the `memory.Add` calls performed (content and
metadata of each), and the new `lastState` when it was assigned. -/
structure AnalyzeAndStoreTrace where
  previousContext : String
  addCalls : List (String × MemoryStore.Metadata)
  lastStateSet : Option String
  deriving Repr, DecidableEq

/-- Go `(*Service).analyzeAndStore` of `internal/service/service.go`.
The three external calls are explicit outcome arguments: `GetRecent`
(errors are only logged, leaving the memory slice empty), `AnalyzeScreen`
(on error the capture is dropped) and `memory.Add` (on error `lastState`
is not assigned). -/
def analyzeAndStore (cap : Capture)
    (recentOutcome : Except String (List MemoryStore.Memory))
    (analyzeOutcome : Except String AnalysisResult)
    (addOutcome : Except String MemoryStore.Memory) : AnalyzeAndStoreTrace :=
  let memories := match recentOutcome with
    | .ok ms => ms
    | .error _ => []
  let previousContext := String.join (memories.map (fun m => m.content ++ " "))
  match analyzeOutcome with
  | .error _ =>
    { previousContext := previousContext, addCalls := [], lastStateSet := none }
  | .ok result =>
    let memoryContent := result.summary ++ " | Context: " ++ result.context ++
      " | Intent: " ++ result.userIntent
    let metadata : MemoryStore.Metadata :=
      { timestamp := cap.timestamp, context := result.context,
        activities := result.activities, keyElements := result.keyElements,
        userIntent := result.userIntent, displayNum := cap.displayNum }
    { previousContext := previousContext,
      addCalls := [(memoryContent, metadata)],
      lastStateSet :=
        match addOutcome with
        | .error _ => none
        | .ok _ => some result.summary }

/-- Go `(*Service).processCapture`, restricted to its effect on the number
of in-flight `analyzeAndStore` goroutines: when the capture fails nothing
happens; when `process_on_capture` is off nothing happens; otherwise
`s.wg.Add(1); go s.analyzeAndStore(...)` starts one more background job,
unconditionally — there is no check of how many jobs are already running
and no tick is dropped. -/
def processCaptureStep (processOnCapture captureOk : Bool)
    (inFlight : Nat) : Nat :=
  if captureOk = false then inFlight
  else if processOnCapture = false then inFlight
  else inFlight + 1

/-- In-flight analyse-and-store jobs after `n` ticks of the capture loop in
which every capture succeeds, `process_on_capture` is set, and no analysis
job has completed yet (analysis latency exceeding the capture interval). -/
def ticksNoCompletion : Nat → Nat
  | 0 => 0
  | n + 1 => processCaptureStep true true (ticksNoCompletion n)

end Service

namespace Server

/-- An HTTP request as seen by the extension server's middleware: the
method and the value of the `Origin` header when one is present. -/
structure HttpRequest where
  method : String
  origin : Option String
  deriving Repr, DecidableEq

/-- An HTTP response: status code and response headers in write order. -/
structure HttpResponse where
  status : Nat
  headers : List (String × String)
  deriving Repr, DecidableEq

/-- Go `corsMiddleware` of `aurabot/go/internal/server/server.go`: it
writes `Access-Control-Allow-Origin: *` and the other two CORS headers on
every response, without ever reading the request's `Origin` header; an
`OPTIONS` request is answered 200 immediately, anything else is delegated
to the wrapped handler. -/
def corsMiddleware (next : HttpRequest → HttpResponse)
    (r : HttpRequest) : HttpResponse :=
  let corsHeaders :=
    [("Access-Control-Allow-Origin", "*"),
     ("Access-Control-Allow-Methods", "GET, POST, OPTIONS"),
     ("Access-Control-Allow-Headers", "Content-Type, Authorization")]
  if r.method = "OPTIONS" then
    { status := 200, headers := corsHeaders }
  else
    let resp := next r
    { status := resp.status, headers := corsHeaders ++ resp.headers }

end Server

namespace SwiftServer

/-- Swift `HTTPHandler.allowedOrigins` of
`aurabot-swift/Sources/AuraBot/Core/AppDelegate.swift`. -/
def allowedOrigins : List String :=
  ["http://localhost:3000", "http://localhost:8080",
   "http://localhost:7345", "chrome-extension://"]

/-- Swift `String.hasPrefix`, on the character sequence. -/
def hasPrefix (s pre : String) : Bool :=
  pre.data.isPrefixOf s.data

/-- Swift `String.hasSuffix`, on the character sequence. -/
def hasSuffix (s suf : String) : Bool :=
  suf.data.isSuffixOf s.data

/-- Swift `HTTPHandler.isAllowedOrigin`: the empty origin (same-origin
request) is allowed; otherwise an entry ending in `://` matches by prefix
and any other entry by equality. -/
def isAllowedOrigin (origin : String) : Bool :=
  origin.isEmpty ||
    allowedOrigins.any (fun allowed =>
      (hasSuffix allowed "://" && hasPrefix origin allowed) || origin == allowed)

/-- The CORS decision of Swift `HTTPHandler.handleRequest`: the origin the
`Access-Control-Allow-Origin` header is set to, or `none` when the origin
is disallowed and no CORS headers are added. -/
def corsOrigin (origin : String) : Option String :=
  if isAllowedOrigin origin then
    some (if origin.isEmpty then "http://localhost:3000" else origin)
  else none

/-- The response headers written by Swift `HTTPHandler.handleRequest`
before dispatching on the route: `Content-Type` always, the four CORS
headers only for an allowed origin. -/
def responseHeaders (origin : String) : List (String × String) :=
  [("Content-Type", "application/json")] ++
    (match corsOrigin origin with
     | some o =>
       [("Access-Control-Allow-Origin", o),
        ("Access-Control-Allow-Methods", "GET, POST, OPTIONS"),
        ("Access-Control-Allow-Headers", "Content-Type, Authorization"),
        ("Access-Control-Allow-Credentials", "true")]
     | none => [])

end SwiftServer

namespace Capture

/-- An image: its dimensions and pixel grid (colours as naturals). The
bounds of a decoded screenshot start at the origin, so `width`/`height`
are `bounds.Dx()`/`bounds.Dy()`. -/
structure Image where
  width : Nat
  height : Nat
  pix : Nat → Nat → Nat

/-- Go `resizeImage` of the supermemory capture package (src/unnamed/
part_007): with a non-positive cap on either axis, or an image already
within both caps, the image is returned unchanged; otherwise the scale is
the smaller of the two ratios `maxWidth/width` and `maxHeight/height`
(Go `float64` arithmetic modelled as exact rationals, the `int(...)`
conversions of the non-negative products as floors) and the pixels are
nearest-neighbour samples at `int(x/scale)`, `int(y/scale)`. -/
def resizeImage (img : Image) (maxWidth maxHeight : Nat) : Image :=
  if maxWidth = 0 ∨ maxHeight = 0 then img
  else if img.width ≤ maxWidth ∧ img.height ≤ maxHeight then img
  else
    let scaleX : ℚ := (maxWidth : ℚ) / (img.width : ℚ)
    let scaleY : ℚ := (maxHeight : ℚ) / (img.height : ℚ)
    let scale : ℚ := if scaleY < scaleX then scaleY else scaleX
    let newWidth : Nat := (⌊(img.width : ℚ) * scale⌋).toNat
    let newHeight : Nat := (⌊(img.height : ℚ) * scale⌋).toNat
    { width := newWidth, height := newHeight,
      pix := fun x y =>
        img.pix ((⌊(x : ℚ) / scale⌋).toNat) ((⌊(y : ℚ) / scale⌋).toNat) }

/-- The scale factor `resizeImage` applies in its resize branch: the
smaller of the two ratios `maxWidth/width` and `maxHeight/height`. -/
def minScale (w h maxW maxH : Nat) : ℚ :=
  min ((maxW : ℚ) / (w : ℚ)) ((maxH : ℚ) / (h : ℚ))

end Capture

namespace CaptureAssistant

/-- Go `resizeImage` of `internal/capture/capture.go`: scales to exactly
the given target dimensions by nearest-neighbour sampling at
`int(x*oldWidth/newWidth)`, `int(y*oldHeight/newHeight)`. -/
def resizeImageToDims (src : Capture.Image) (newWidth newHeight : Nat) :
    Capture.Image :=
  let xRatio : ℚ := (src.width : ℚ) / (newWidth : ℚ)
  let yRatio : ℚ := (src.height : ℚ) / (newHeight : ℚ)
  { width := newWidth, height := newHeight,
    pix := fun x y =>
      src.pix ((⌊(x : ℚ) * xRatio⌋).toNat) ((⌊(y : ℚ) * yRatio⌋).toNat) }

/-- Go `(*Capturer).resize` of `internal/capture/capture.go`: only the
configured `max_width` is consulted; when the image is wider, the target
height is derived from the width ratio alone (`int(Dy * maxWidth/width)`)
and the configured `max_height` plays no part. -/
def resize (maxWidth : Nat) (img : Capture.Image) : Capture.Image :=
  if maxWidth = 0 then img
  else if img.width ≤ maxWidth then img
  else
    let ratio : ℚ := (maxWidth : ℚ) / (img.width : ℚ)
    let height : Nat := (⌊(img.height : ℚ) * ratio⌋).toNat
    resizeImageToDims img maxWidth height

end CaptureAssistant

namespace StoreAdd

/-- The outcome of the backend HTTP round trip performed by an `Add` call:
`error` when `httpClient.Do` fails, otherwise the status code together
with the id decoded from the response body (`none` when the body did not
decode into the `{id}` shape, `some id` when it did — possibly the empty
string). -/
def AddHttpOutcome := Except String (Nat × Option String)

/-- Go `(*Store).Add` of `supermemory/internal/memory/store.go`: builds
the local `Memory` first (empty id, `created_at := now`), sends the
content-dialect request, fails on a transport error or a status other
than 200/201, and copies the decoded response id into the memory only
when decoding succeeded and the id is non-empty. -/
def supermemoryAdd (content : String) (metadata : MemoryStore.Metadata)
    (userId : String) (now : Nat) (httpOutcome : AddHttpOutcome) :
    Except String MemoryStore.Memory :=
  let memory : MemoryStore.Memory :=
    { id := "", content := content, userId := userId,
      metadata := metadata, createdAt := now }
  match httpOutcome with
  | .error e => .error ("sending request: " ++ e)
  | .ok (status, decodedId) =>
    if status ≠ 200 ∧ status ≠ 201 then .error "unexpected status"
    else
      .ok (match decodedId with
        | some i => if i ≠ "" then { memory with id := i } else memory
        | none => memory)

/-- Go `(*Store).Add` of `mem0/internal/memory/store.go`: builds the local
`Memory` (empty id), sends the message-dialect request, fails on a
transport error or a status other than 200/201, and returns the local
memory without ever reading an id from the response body. -/
def mem0Add (content : String) (metadata : MemoryStore.Metadata)
    (userId : String) (now : Nat) (httpOutcome : AddHttpOutcome) :
    Except String MemoryStore.Memory :=
  let memory : MemoryStore.Memory :=
    { id := "", content := content, userId := userId,
      metadata := metadata, createdAt := now }
  match httpOutcome with
  | .error e => .error ("sending request: " ++ e)
  | .ok (status, _decodedId) =>
    if status ≠ 200 ∧ status ≠ 201 then .error "unexpected status"
    else .ok memory

end StoreAdd

namespace Enhancer

/-- Modelled from the spec's words (§4.5 step 4), for comparison with
`determineEnhancementType`: `|high| ≥ 2 → contextual`;
`|high| = 1 ∧ |ctx| ≥ 2 → detailed`; `|high| = 0 ∧ |ctx| ≥ 1 → minimal`;
otherwise `contextual`. -/
def specFourWayType (high ctx : Nat) : String :=
  if 2 ≤ high then "contextual"
  else if high = 1 ∧ 2 ≤ ctx then "detailed"
  else if high = 0 ∧ 1 ≤ ctx then "minimal"
  else "contextual"

end Enhancer

/-- A sample metadata value for concrete instantiations. -/
def sampleMetadata : MemoryStore.Metadata :=
  { timestamp := "", context := "", activities := [], keyElements := [],
    userIntent := "", displayNum := 0 }

/-- A sample memory with the given content. -/
def sampleMemory (c : String) : MemoryStore.Memory :=
  { id := "", content := c, userId := "u", metadata := sampleMetadata,
    createdAt := 0 }

/-- A sample search result with the given content and score. -/
def sampleResult (c : String) (score : ℚ) : MemoryStore.SearchResult :=
  { memory := sampleMemory c, score := score, distance := 0 }

/-- A sample non-empty result list: one high-relevance and one contextual
match. -/
def sampleResults : List MemoryStore.SearchResult :=
  [sampleResult "A" (9 / 10), sampleResult "B" (2 / 5)]

/-- A 600-character raw assistant text that is not parseable as JSON. -/
def longRaw : String := String.mk (List.replicate 600 'a')

/-- A stub downstream handler for exercising the CORS middleware. -/
def nextStub : Server.HttpRequest → Server.HttpResponse :=
  fun _ => { status := 200, headers := [] }

/-- A sample 200x100 image. -/
def imgSample : Capture.Image :=
  { width := 200, height := 100, pix := fun _ _ => 0 }

/-- A sample 2000x2000 image. -/
def imgSquare : Capture.Image :=
  { width := 2000, height := 2000, pix := fun _ _ => 0 }

namespace Enhancer

/-- The categorisation loop records every result's content, in order. -/
theorem categorize_fst (R : List MemoryStore.SearchResult) :
    (categorize R).1 = R.map (fun r => r.memory.content) := by
  induction R with
  | nil => rfl
  | cons r rest ih => simp [categorize, ih]

/-- The high-relevance list built by the loop is the order-preserving
filter of the results whose score exceeds 0.85, mapped to contents. -/
theorem categorize_high (R : List MemoryStore.SearchResult) :
    (categorize R).2.1 =
      (R.filter (fun r => (0.85 : ℚ) < r.score)).map (fun r => r.memory.content) := by
  induction R with
  | nil => rfl
  | cons r rest ih =>
    by_cases h : (0.85 : ℚ) < r.score <;> simp [categorize, h, ih]

/-- The contextual list built by the loop is the order-preserving filter of
the remaining results, mapped to contents. -/
theorem categorize_ctx (R : List MemoryStore.SearchResult) :
    (categorize R).2.2.1 =
      (R.filter (fun r => ¬ (0.85 : ℚ) < r.score)).map (fun r => r.memory.content) := by
  induction R with
  | nil => rfl
  | cons r rest ih =>
    rcases le_or_lt r.score 0.85 with h | h
    · have h2 : ¬ (0.85 : ℚ) < r.score := not_lt.mpr h
      simp [categorize, List.filter_cons, h2, ih, not_lt, h]
    · have h2 : ¬ r.score ≤ (0.85 : ℚ) := not_le.mpr h
      simp [categorize, List.filter_cons, h, ih, not_lt, h2]

/-- Unfolding of `enhance` on a non-empty result list. -/
theorem enhance_ne_nil (p pc : String) (mm : Nat)
    (R : List MemoryStore.SearchResult) (hne : R ≠ [])
    (st : Stats) (now : Nat) :
    enhance p pc mm (.ok R) st now =
      .ok ({ originalPrompt := p,
             enhancedPrompt := buildEnhancedPrompt p (categorize R).2.1
               (categorize R).2.2.1 (categorize R).2.2.2
               (determineEnhancementType (categorize R).2.1.length
                 (categorize R).2.2.1.length pc),
             memoriesUsed := (categorize R).1,
             enhancementType := determineEnhancementType (categorize R).2.1.length
               (categorize R).2.2.1.length pc },
           { enhancementsMade := st.enhancementsMade + 1,
             lastEnhancement := now }) := by
  cases R with
  | nil => exact absurd rfl hne
  | cons r rest => rfl

end Enhancer

namespace Enhancer

/-- The bullet loop writes at most `stop + 1 - i` lines when it starts at
index `i ≤ stop`. -/
theorem bulletLoop_length (stop : Nat) :
    ∀ (ms : List String) (i : Nat), i ≤ stop →
      (bulletLoop stop ms i).length ≤ stop + 1 - i := by
  intro ms
  induction ms with
  | nil => intro i _; simp [bulletLoop]
  | cons m rest ih =>
    intro i hi
    by_cases h : stop ≤ i
    · simp [bulletLoop, h]
      omega
    · have hlt : i < stop := lt_of_not_le h
      have := ih (i + 1) hlt
      simp [bulletLoop, h]
      omega

/-- Every line written by the bullet loop renders a member of the list. -/
theorem bulletLoop_mem (stop : Nat) :
    ∀ (ms : List String) (i : Nat), ∀ l ∈ bulletLoop stop ms i,
      ∃ m ∈ ms, l = "- " ++ m ++ "\n" := by
  intro ms
  induction ms with
  | nil => intro i l hl; simp [bulletLoop] at hl
  | cons m rest ih =>
    intro i l hl
    simp only [bulletLoop, List.mem_cons] at hl
    rcases hl with h | h
    · exact ⟨m, List.mem_cons_self m rest, h⟩
    · by_cases hstop : stop ≤ i
      · simp [hstop] at h
      · simp only [if_neg hstop] at h
        obtain ⟨m', hm', rfl⟩ := ih (i + 1) l h
        exact ⟨m', List.mem_cons_of_mem m hm', rfl⟩

end Enhancer

namespace Enhancer

/-- The Go if-chain implements the spec's four-way rule verbatim. -/
theorem determineEnhancementType_eq_spec (h c : Nat) (pc : String) :
    determineEnhancementType h c pc = specFourWayType h c := rfl

end Enhancer

/-- Claim C1: for every non-empty search-result list, Enhance partitions
the results into `high` (score > 0.85) and `ctx` (the rest), each
preserving the incoming order, and picks the enhancement type by the
four-way rule: `|high| ≥ 2 → contextual`, `|high| = 1 ∧ |ctx| ≥ 2 →
detailed`, `|high| = 0 ∧ |ctx| ≥ 1 → minimal`, otherwise `contextual`;
the four cases are total and pairwise disjoint. -/
theorem enhance_partition_and_four_way_type
    (R : List MemoryStore.SearchResult) (hne : R ≠ [])
    (p pc : String) (mm : Nat) (st : Enhancer.Stats) (now : Nat) :
    (∃ res st2, Enhancer.enhance p pc mm (.ok R) st now = .ok (res, st2) ∧
      res.enhancementType = Enhancer.specFourWayType
        ((R.filter (fun r => (0.85 : ℚ) < r.score)).length)
        ((R.filter (fun r => ¬ (0.85 : ℚ) < r.score)).length)) ∧
    (Enhancer.categorize R).2.1 =
      (R.filter (fun r => (0.85 : ℚ) < r.score)).map (fun r => r.memory.content) ∧
    (Enhancer.categorize R).2.2.1 =
      (R.filter (fun r => ¬ (0.85 : ℚ) < r.score)).map (fun r => r.memory.content) ∧
    ((R.filter (fun r => (0.85 : ℚ) < r.score)).map
      (fun r => r.memory.content)).Sublist (R.map (fun r => r.memory.content)) ∧
    ((R.filter (fun r => ¬ (0.85 : ℚ) < r.score)).map
      (fun r => r.memory.content)).Sublist (R.map (fun r => r.memory.content)) ∧
    (∀ h c, Enhancer.determineEnhancementType h c pc = Enhancer.specFourWayType h c) ∧
    (∀ h c, 2 ≤ h → Enhancer.specFourWayType h c = "contextual") ∧
    (∀ h c, h = 1 → 2 ≤ c → Enhancer.specFourWayType h c = "detailed") ∧
    (∀ h c, h = 0 → 1 ≤ c → Enhancer.specFourWayType h c = "minimal") ∧
    (∀ h c, ¬ 2 ≤ h → ¬ (h = 1 ∧ 2 ≤ c) → ¬ (h = 0 ∧ 1 ≤ c) →
      Enhancer.specFourWayType h c = "contextual") ∧
    (∀ h c : Nat,
      (2 ≤ h ∧ ¬ (h = 1 ∧ 2 ≤ c) ∧ ¬ (h = 0 ∧ 1 ≤ c)) ∨
      (¬ 2 ≤ h ∧ (h = 1 ∧ 2 ≤ c) ∧ ¬ (h = 0 ∧ 1 ≤ c)) ∨
      (¬ 2 ≤ h ∧ ¬ (h = 1 ∧ 2 ≤ c) ∧ (h = 0 ∧ 1 ≤ c)) ∨
      (¬ 2 ≤ h ∧ ¬ (h = 1 ∧ 2 ≤ c) ∧ ¬ (h = 0 ∧ 1 ≤ c))) := by
  refine ⟨?_, Enhancer.categorize_high R, Enhancer.categorize_ctx R,
    (List.Sublist.map _ (List.filter_sublist R)),
    (List.Sublist.map _ (List.filter_sublist R)),
    fun h c => rfl, ?_, ?_, ?_, ?_, ?_⟩
  · refine ⟨_, _, Enhancer.enhance_ne_nil p pc mm R hne st now, ?_⟩
    show Enhancer.determineEnhancementType _ _ pc = _
    rw [Enhancer.categorize_high, Enhancer.categorize_ctx,
      List.length_map, List.length_map]
    exact Enhancer.determineEnhancementType_eq_spec _ _ pc
  · intro h c hh
    simp [Enhancer.specFourWayType, hh]
  · intro h c hh hc
    simp [Enhancer.specFourWayType, hh, hc]
  · intro h c hh hc
    have : ¬ 2 ≤ h := by omega
    simp [Enhancer.specFourWayType, hh, hc, this]
  · intro h c h1 h2 h3
    simp only [Enhancer.specFourWayType, if_neg h1, if_neg h2, if_neg h3]
  · intro h c
    omega

/-- Witness for C1 at a concrete two-element result list
(scores 0.9 and 0.4). -/
theorem enhance_partition_and_four_way_type_witness :
    ∃ res st2,
      Enhancer.enhance "help" "" 5 (.ok sampleResults) ⟨0, 0⟩ 7 = .ok (res, st2) ∧
      res.enhancementType = Enhancer.specFourWayType
        ((sampleResults.filter (fun r => (0.85 : ℚ) < r.score)).length)
        ((sampleResults.filter (fun r => ¬ (0.85 : ℚ) < r.score)).length) :=
  (enhance_partition_and_four_way_type sampleResults (by simp [sampleResults])
    "help" "" 5 ⟨0, 0⟩ 7).1

/-- Claim C2: with an empty search-result list, Enhance does not fail and
returns the degenerate result: the enhanced prompt is the original prompt,
the type is "none" and no memories are used (the stats are passed through
untouched). -/
theorem enhance_empty_degenerate (p pc : String) (mm : Nat)
    (st : Enhancer.Stats) (now : Nat) :
    Enhancer.enhance p pc mm (.ok []) st now =
      .ok ({ originalPrompt := p, enhancedPrompt := p, memoriesUsed := [],
             enhancementType := "none" }, st) := rfl

/-- Claim C3: the prompt appendix is bounded per type — a contextual
result renders at most 3 lines from the high-score partition and at most
2 lines in the additional-context block, a detailed result renders at
most 4 memory lines in total, and for every type the result begins with
the unmodified original prompt. -/
theorem buildEnhancedPrompt_caps (p : String) (high ctx allMem : List String) :
    (∀ ty, ∃ s, Enhancer.buildEnhancedPrompt p high ctx allMem ty = p ++ s) ∧
    (∃ hb ab, Enhancer.buildEnhancedPrompt p high ctx allMem "contextual" =
        p ++ ("\n\n[Context from previous sessions]\n" ++
          "Based on my previous activities and context:\n" ++
          String.join hb ++
          (if 0 < ctx.length then
            "\nAdditional context:\n" ++ String.join ab
          else "")) ∧
      hb.length ≤ 3 ∧ ab.length ≤ 2 ∧
      (∀ l ∈ hb, ∃ m ∈ high, l = "- " ++ m ++ "\n") ∧
      (∀ l ∈ ab, ∃ m ∈ ctx, l = "- " ++ m ++ "\n")) ∧
    (∃ db, Enhancer.buildEnhancedPrompt p high ctx allMem "detailed" =
        p ++ ("\n\n[Relevant background]\n" ++ String.join db) ∧
      db.length ≤ 4 ∧
      (∀ l ∈ db, ∃ m ∈ allMem, l = "- " ++ m ++ "\n")) := by
  refine ⟨fun ty => ⟨_, rfl⟩,
    ⟨Enhancer.bulletLoop 2 high 0, Enhancer.bulletLoop 1 ctx 0, rfl, ?_, ?_,
      Enhancer.bulletLoop_mem 2 high 0, Enhancer.bulletLoop_mem 1 ctx 0⟩,
    ⟨Enhancer.bulletLoop 3 allMem 0, rfl, ?_,
      Enhancer.bulletLoop_mem 3 allMem 0⟩⟩
  · simpa using Enhancer.bulletLoop_length 2 high 0 (Nat.zero_le 2)
  · simpa using Enhancer.bulletLoop_length 1 ctx 0 (Nat.zero_le 1)
  · simpa using Enhancer.bulletLoop_length 3 allMem 0 (Nat.zero_le 3)

/-- Witness for C3: the contextual appendix at a concrete input starts
with the original prompt. -/
theorem buildEnhancedPrompt_caps_witness :
    ∃ s, Enhancer.buildEnhancedPrompt "q" ["A", "B", "C", "D"] ["E"] []
      "contextual" = "q" ++ s :=
  (buildEnhancedPrompt_caps "q" ["A", "B", "C", "D"] ["E"] []).1 "contextual"

/-- Claim C10: a call that finds no search results leaves the enhancer
statistics unchanged; a call with at least one result increments
`enhancementsMade` by exactly 1 and sets `lastEnhancement` to the current
instant. -/
theorem enhance_stats_frame (p pc : String) (mm : Nat)
    (st : Enhancer.Stats) (now : Nat) :
    ((Enhancer.enhance p pc mm (.ok []) st now).map Prod.snd = .ok st) ∧
    (∀ R : List MemoryStore.SearchResult, R ≠ [] →
      (Enhancer.enhance p pc mm (.ok R) st now).map Prod.snd =
        .ok { enhancementsMade := st.enhancementsMade + 1,
              lastEnhancement := now }) := by
  refine ⟨rfl, fun R hne => ?_⟩
  rw [Enhancer.enhance_ne_nil p pc mm R hne st now]
  rfl

/-- Witness for C10 at a concrete non-empty result list. -/
theorem enhance_stats_frame_witness :
    sampleResults ≠ [] ∧
    (Enhancer.enhance "p" "" 5 (.ok sampleResults) ⟨3, 0⟩ 42).map Prod.snd =
      .ok ⟨4, 42⟩ :=
  ⟨by simp [sampleResults],
   (enhance_stats_frame "p" "" 5 ⟨3, 0⟩ 42).2 sampleResults
     (by simp [sampleResults])⟩

/-- Claim C8: whenever the analysis succeeds, `analyzeAndStore` performs
exactly one `memory.Add` call and its content is exactly
`"{summary} | Context: {context} | Intent: {user_intent}"`, with the
result's fields and the capture's timestamp/display in the metadata —
regardless of the recent-memory and add outcomes. -/
theorem analyzeAndStore_single_add_content (cap : Service.Capture)
    (recentOutcome : Except String (List MemoryStore.Memory))
    (result : AnalysisResult) (addOutcome : Except String MemoryStore.Memory) :
    (Service.analyzeAndStore cap recentOutcome (.ok result) addOutcome).addCalls =
      [(result.summary ++ " | Context: " ++ result.context ++ " | Intent: " ++
          result.userIntent,
        { timestamp := cap.timestamp, context := result.context,
          activities := result.activities, keyElements := result.keyElements,
          userIntent := result.userIntent, displayNum := cap.displayNum })] := rfl

/-- Counterexample to C7 as stated: two ticks that both fire while no
analysis job has completed leave two jobs in flight (the second tick was
not dropped), and no fixed bound caps the number of in-flight jobs. -/
theorem processCapture_no_backpressure_cex :
    Service.ticksNoCompletion 2 = 2 ∧
    ¬ ∃ B : Nat, ∀ n : Nat, Service.ticksNoCompletion n ≤ B := by
  have hall : ∀ n, Service.ticksNoCompletion n = n := by
    intro n
    induction n with
    | zero => rfl
    | succ k ih =>
      simp [Service.ticksNoCompletion, Service.processCaptureStep, ih]
  refine ⟨hall 2, ?_⟩
  rintro ⟨B, hB⟩
  have := hB (B + 1)
  rw [hall (B + 1)] at this
  omega

/-- Claim C7 (amended): each tick whose capture succeeds while
`process_on_capture` is set spawns one more analyse-and-store goroutine,
unconditionally; a failed capture or a disabled flag leaves the count
unchanged; hence after `n` such ticks with no completed analysis there
are exactly `n` jobs in flight — nothing is dropped or queued. -/
theorem processCapture_spawns_every_tick :
    (∀ k, Service.processCaptureStep true true k = k + 1) ∧
    (∀ b k, Service.processCaptureStep b false k = k) ∧
    (∀ k, Service.processCaptureStep false true k = k) ∧
    (∀ n, Service.ticksNoCompletion n = n) := by
  refine ⟨fun k => rfl, fun b k => rfl, fun k => rfl, fun n => ?_⟩
  induction n with
  | zero => rfl
  | succ k ih => simp [Service.ticksNoCompletion, Service.processCaptureStep, ih]

/-- Counterexample to C6 as stated: `https://evil.example` is not in the
allow-list, yet the Go extension server's middleware answers a GET bearing
that Origin with `Access-Control-Allow-Origin: *`. -/
theorem corsMiddleware_wildcard_cex :
    SwiftServer.isAllowedOrigin "https://evil.example" = false ∧
    (Server.corsMiddleware nextStub
        { method := "GET", origin := some "https://evil.example" }).headers.lookup
      "Access-Control-Allow-Origin" = some "*" := by
  constructor
  · decide
  · rfl

/-- Claim C6 (amended): the Go extension server's middleware attaches
`Access-Control-Allow-Origin: *` to every response regardless of the
request's Origin, and answers every preflight OPTIONS with 200; only the
Swift API server implements the allow-list (configured localhost origins
plus `chrome-extension://` by prefix), echoing an allowed origin and
omitting all CORS headers for a disallowed one. -/
theorem cors_go_wildcard_swift_allowlist :
    (∀ next r, (Server.corsMiddleware next r).headers.lookup
      "Access-Control-Allow-Origin" = some "*") ∧
    (∀ next r, r.method = "OPTIONS" →
      (Server.corsMiddleware next r).status = 200) ∧
    (∀ origin, SwiftServer.isAllowedOrigin origin = false →
      (SwiftServer.responseHeaders origin).lookup
        "Access-Control-Allow-Origin" = none) ∧
    (∀ origin, SwiftServer.isAllowedOrigin origin = true → origin.isEmpty = false →
      (SwiftServer.responseHeaders origin).lookup
        "Access-Control-Allow-Origin" = some origin) := by
  refine ⟨fun next r => ?_, fun next r h => ?_, fun origin h => ?_,
    fun origin h hne => ?_⟩
  · unfold Server.corsMiddleware
    by_cases hm : r.method = "OPTIONS" <;> simp [hm, List.lookup]
  · simp [Server.corsMiddleware, h]
  · simp [SwiftServer.responseHeaders, SwiftServer.corsOrigin, h, List.lookup]
  · simp [SwiftServer.responseHeaders, SwiftServer.corsOrigin, h, hne, List.lookup]

/-- Witness for C6 (amended) at concrete requests: an OPTIONS preflight is
answered 200 by the Go middleware, and the Swift server omits the CORS
header for the disallowed origin `https://evil.example` while echoing the
allowed origin `chrome-extension://abc`. -/
theorem cors_go_wildcard_swift_allowlist_witness :
    (Server.corsMiddleware nextStub { method := "OPTIONS", origin := none }).status
        = 200 ∧
    (SwiftServer.responseHeaders "https://evil.example").lookup
        "Access-Control-Allow-Origin" = none ∧
    (SwiftServer.responseHeaders "chrome-extension://abc").lookup
        "Access-Control-Allow-Origin" = some "chrome-extension://abc" :=
  ⟨cors_go_wildcard_swift_allowlist.2.1 nextStub
      { method := "OPTIONS", origin := none } rfl,
   cors_go_wildcard_swift_allowlist.2.2.1 "https://evil.example" (by decide),
   cors_go_wildcard_swift_allowlist.2.2.2 "chrome-extension://abc" (by decide)
     (by decide)⟩

/-- Counterexample to C4 as stated: on a 600-character unparseable
assistant text, the supermemory client's fallback keeps the raw text as
the summary without truncating it to 500 characters, so the summary is
not the truncated-with-ellipsis form the claim requires. -/
theorem parseResponse_fallback_no_truncation_cex :
    (SupermemoryClient.parseResponse longRaw none).summary = longRaw ∧
    500 < longRaw.length ∧
    (SupermemoryClient.parseResponse longRaw none).summary ≠
      String.mk (longRaw.data.take 500) ++ "..." := by
  refine ⟨rfl, by decide, by decide⟩

/-- Claim C4 (amended): neither parser ever fails. The supermemory client
returns, on a failed JSON-object parse, the raw text as the summary
untruncated with the sentinels `unknown`/empty elsewhere, and on a
successful parse copies each recognised field only when its type checks
(strings into scalar fields, string elements of arrays into sequence
fields, other shapes skipped). The internal/llm client never parses: it
always returns the sentinel result with the raw text as summary,
truncated to 500 characters plus an ellipsis when longer, so its summary
never exceeds 503 characters unless it is the raw text itself. -/
theorem parseResponse_fallback_and_copy :
    (∀ content, SupermemoryClient.parseResponse content none =
      { summary := content, context := "unknown", activities := [],
        keyElements := [], userIntent := "unknown" }) ∧
    (∀ content fields s, fields.lookup "summary" = some (JVal.str s) →
      (SupermemoryClient.parseResponse content (some fields)).summary = s) ∧
    (∀ content fields, (∀ s, fields.lookup "summary" ≠ some (JVal.str s)) →
      (SupermemoryClient.parseResponse content (some fields)).summary = content) ∧
    (∀ content fields s, fields.lookup "context" = some (JVal.str s) →
      (SupermemoryClient.parseResponse content (some fields)).context = s) ∧
    (∀ content fields s, fields.lookup "user_intent" = some (JVal.str s) →
      (SupermemoryClient.parseResponse content (some fields)).userIntent = s) ∧
    (∀ content fields xs, fields.lookup "activities" = some (JVal.arr xs) →
      (SupermemoryClient.parseResponse content (some fields)).activities =
        xs.filterMap (fun v => match v with | .str s => some s | _ => none)) ∧
    (∀ content fields, (∀ xs, fields.lookup "activities" ≠ some (JVal.arr xs)) →
      (SupermemoryClient.parseResponse content (some fields)).activities = []) ∧
    (∀ content, LlmClient.parseResponse content =
      { summary := if 500 < content.data.length then
          String.mk (content.data.take 500) ++ "..." else content,
        context := "unknown", activities := [], keyElements := [],
        userIntent := "unknown" }) ∧
    (∀ content, (LlmClient.parseResponse content).summary.length ≤ 503 ∨
      (LlmClient.parseResponse content).summary = content) := by
  refine ⟨fun content => rfl, fun content fields s h => ?_,
    fun content fields h => ?_, fun content fields s h => ?_,
    fun content fields s h => ?_, fun content fields xs h => ?_,
    fun content fields h => ?_, fun content => rfl, fun content => ?_⟩
  · simp only [SupermemoryClient.parseResponse, h]
  · rcases hl : fields.lookup "summary" with _ | v
    · simp [SupermemoryClient.parseResponse, hl]
    · cases v <;> simp [SupermemoryClient.parseResponse, hl] <;>
        exact absurd hl (h _)
  · simp only [SupermemoryClient.parseResponse, h]
  · simp only [SupermemoryClient.parseResponse, h]
  · simp only [SupermemoryClient.parseResponse, h]
  · rcases hl : fields.lookup "activities" with _ | v
    · simp [SupermemoryClient.parseResponse, hl]
    · cases v <;> simp [SupermemoryClient.parseResponse, hl] <;>
        exact absurd hl (h _)
  · by_cases hlen : 500 < content.data.length
    · left
      simp only [LlmClient.parseResponse, if_pos hlen]
      have h1 : (String.mk (content.data.take 500) ++ "...").length =
          (content.data.take 500).length + 3 := by
        rw [String.length_append, String.length_mk]
        rfl
      rw [h1]
      have := List.length_take_le 500 content.data
      omega
    · right
      simp only [LlmClient.parseResponse, if_neg hlen]

/-- Witness for C4 (amended) at concrete inputs: a parsed object with a
string summary has it copied; one without a string summary keeps the raw
text. -/
theorem parseResponse_fallback_and_copy_witness :
    (SupermemoryClient.parseResponse "raw text"
        (some [("summary", JVal.str "S"), ("context", JVal.num 3)])).summary
      = "S" ∧
    (SupermemoryClient.parseResponse "raw text"
        (some [("context", JVal.num 3)])).summary = "raw text" :=
  ⟨parseResponse_fallback_and_copy.2.1 "raw text"
      [("summary", JVal.str "S"), ("context", JVal.num 3)] "S" rfl,
   parseResponse_fallback_and_copy.2.2.1 "raw text"
      [("context", JVal.num 3)] (fun s => by simp [List.lookup])⟩

/-- Counterexample to C9 as stated: the mem0 client's Add succeeds against
a 200 response whose body supplies the id `m-1`, yet the returned Memory's
id is the empty string, not `m-1`. -/
theorem mem0Add_ignores_backend_id_cex :
    StoreAdd.mem0Add "c" sampleMetadata "u" 0 (.ok (200, some "m-1")) =
      .ok { id := "", content := "c", userId := "u",
            metadata := sampleMetadata, createdAt := 0 } ∧
    ("" : String) ≠ "m-1" := ⟨rfl, by decide⟩

/-- Claim C9 (amended): on a 200/201 response, the supermemory client's
Add returns the backend id when the response supplied a non-empty one and
a Memory with empty id when the id was missing or empty — never failing;
the mem0 client's Add never reads the response id and always returns a
Memory with empty id, also without failing. -/
theorem add_returns_backend_id :
    (∀ content md uid now status i, status = 200 ∨ status = 201 → i ≠ "" →
      StoreAdd.supermemoryAdd content md uid now (.ok (status, some i)) =
        .ok { id := i, content := content, userId := uid, metadata := md,
              createdAt := now }) ∧
    (∀ content md uid now status, status = 200 ∨ status = 201 →
      StoreAdd.supermemoryAdd content md uid now (.ok (status, none)) =
        .ok { id := "", content := content, userId := uid, metadata := md,
              createdAt := now }) ∧
    (∀ content md uid now status, status = 200 ∨ status = 201 →
      StoreAdd.supermemoryAdd content md uid now (.ok (status, some "")) =
        .ok { id := "", content := content, userId := uid, metadata := md,
              createdAt := now }) ∧
    (∀ content md uid now status decodedId, status = 200 ∨ status = 201 →
      StoreAdd.mem0Add content md uid now (.ok (status, decodedId)) =
        .ok { id := "", content := content, userId := uid, metadata := md,
              createdAt := now }) := by
  have hstat : ∀ status : Nat, status = 200 ∨ status = 201 →
      ¬ (status ≠ 200 ∧ status ≠ 201) := by omega
  refine ⟨fun content md uid now status i hs hi => ?_,
    fun content md uid now status hs => ?_,
    fun content md uid now status hs => ?_,
    fun content md uid now status decodedId hs => ?_⟩
  · simp [StoreAdd.supermemoryAdd, hstat status hs, hi]
  · simp [StoreAdd.supermemoryAdd, hstat status hs]
  · simp [StoreAdd.supermemoryAdd, hstat status hs]
  · simp [StoreAdd.mem0Add, hstat status hs]

/-- Witness for C9 (amended): the supermemory Add copies the backend id
`abc` from a 201 response. -/
theorem add_returns_backend_id_witness :
    StoreAdd.supermemoryAdd "c" sampleMetadata "u" 5 (.ok (201, some "abc")) =
      .ok { id := "abc", content := "c", userId := "u",
            metadata := sampleMetadata, createdAt := 5 } :=
  add_returns_backend_id.1 "c" sampleMetadata "u" 5 201 "abc" (Or.inr rfl)
    (by decide)

/-- Floor-then-toNat of a rational below a natural bound stays below it. -/
theorem toNat_floor_le_of_le (a : ℚ) (bound : Nat) (h : a ≤ (bound : ℚ)) :
    (⌊a⌋).toNat ≤ bound :=
  Int.toNat_le.mpr (by simpa using Int.floor_mono h)

/-- In its resize branch, `resizeImage` floors each dimension scaled by
the smaller of the two ratios. -/
theorem resizeImage_eq_of_exceeds (img : Capture.Image) (maxW maxH : Nat)
    (hz : ¬ (maxW = 0 ∨ maxH = 0))
    (hfit : ¬ (img.width ≤ maxW ∧ img.height ≤ maxH)) :
    (Capture.resizeImage img maxW maxH).width =
      (⌊(img.width : ℚ) *
        Capture.minScale img.width img.height maxW maxH⌋).toNat ∧
    (Capture.resizeImage img maxW maxH).height =
      (⌊(img.height : ℚ) *
        Capture.minScale img.width img.height maxW maxH⌋).toNat := by
  have hif : (if (maxH : ℚ) / (img.height : ℚ) < (maxW : ℚ) / (img.width : ℚ)
        then (maxH : ℚ) / (img.height : ℚ)
        else (maxW : ℚ) / (img.width : ℚ)) =
      Capture.minScale img.width img.height maxW maxH := by
    rw [Capture.minScale]
    rcases lt_or_le ((maxH : ℚ) / (img.height : ℚ))
      ((maxW : ℚ) / (img.width : ℚ)) with h | h
    · rw [if_pos h, min_eq_right h.le]
    · rw [if_neg (not_lt.mpr h), min_eq_left h]
  constructor <;>
  · unfold Capture.resizeImage
    rw [if_neg hz, if_neg hfit]
    simp only [hif]

/-- Claim C5 (amended): the supermemory `resizeImage` obeys the claim in
full — with both caps positive and the image exceeding either, both new
dimensions fit the caps, each equals the floor of the old dimension times
the smaller of the two ratios (so the aspect ratio is kept to within one
pixel per axis), and an image within both caps, or a zero cap, is
returned unchanged. The internal/capture `resize`, however, enforces only
the width cap: it scales to exactly `max_width` wide with the height
derived from the width ratio alone. -/
theorem resizeImage_dimension_bounds (img : Capture.Image) (maxW maxH : Nat)
    (hW : 0 < img.width) (hH : 0 < img.height) :
    (0 < maxW → 0 < maxH → (maxW < img.width ∨ maxH < img.height) →
      (Capture.resizeImage img maxW maxH).width ≤ maxW ∧
      (Capture.resizeImage img maxW maxH).height ≤ maxH ∧
      (Capture.resizeImage img maxW maxH).width =
        (⌊(img.width : ℚ) *
          Capture.minScale img.width img.height maxW maxH⌋).toNat ∧
      (Capture.resizeImage img maxW maxH).height =
        (⌊(img.height : ℚ) *
          Capture.minScale img.width img.height maxW maxH⌋).toNat ∧
      (img.width : ℚ) * Capture.minScale img.width img.height maxW maxH - 1 <
        ((Capture.resizeImage img maxW maxH).width : ℚ) ∧
      ((Capture.resizeImage img maxW maxH).width : ℚ) ≤
        (img.width : ℚ) * Capture.minScale img.width img.height maxW maxH ∧
      (img.height : ℚ) * Capture.minScale img.width img.height maxW maxH - 1 <
        ((Capture.resizeImage img maxW maxH).height : ℚ) ∧
      ((Capture.resizeImage img maxW maxH).height : ℚ) ≤
        (img.height : ℚ) * Capture.minScale img.width img.height maxW maxH) ∧
    ((img.width ≤ maxW ∧ img.height ≤ maxH) ∨ maxW = 0 ∨ maxH = 0 →
      Capture.resizeImage img maxW maxH = img) ∧
    (0 < maxW → maxW < img.width →
      (CaptureAssistant.resize maxW img).width = maxW ∧
      (CaptureAssistant.resize maxW img).height =
        (⌊(img.height : ℚ) * ((maxW : ℚ) / (img.width : ℚ))⌋).toNat) := by
  have hWQ : (0 : ℚ) < (img.width : ℚ) := by exact_mod_cast hW
  have hHQ : (0 : ℚ) < (img.height : ℚ) := by exact_mod_cast hH
  refine ⟨fun hmW hmH hex => ?_, fun hcase => ?_, fun hmW hlt => ?_⟩
  · have hz : ¬ (maxW = 0 ∨ maxH = 0) := by omega
    have hfit : ¬ (img.width ≤ maxW ∧ img.height ≤ maxH) := by omega
    obtain ⟨hwidth, hheight⟩ := resizeImage_eq_of_exceeds img maxW maxH hz hfit
    have hs0 : 0 ≤ Capture.minScale img.width img.height maxW maxH :=
      le_min (by positivity) (by positivity)
    have hWmul : (img.width : ℚ) *
        Capture.minScale img.width img.height maxW maxH ≤ (maxW : ℚ) := by
      have h1 : (img.width : ℚ) *
          Capture.minScale img.width img.height maxW maxH ≤
          (img.width : ℚ) * ((maxW : ℚ) / (img.width : ℚ)) :=
        mul_le_mul_of_nonneg_left (min_le_left _ _) (le_of_lt hWQ)
      have h2 : (img.width : ℚ) * ((maxW : ℚ) / (img.width : ℚ)) = (maxW : ℚ) := by
        field_simp
      exact h1.trans_eq h2
    have hHmul : (img.height : ℚ) *
        Capture.minScale img.width img.height maxW maxH ≤ (maxH : ℚ) := by
      have h1 : (img.height : ℚ) *
          Capture.minScale img.width img.height maxW maxH ≤
          (img.height : ℚ) * ((maxH : ℚ) / (img.height : ℚ)) :=
        mul_le_mul_of_nonneg_left (min_le_right _ _) (le_of_lt hHQ)
      have h2 : (img.height : ℚ) * ((maxH : ℚ) / (img.height : ℚ)) = (maxH : ℚ) := by
        field_simp
      exact h1.trans_eq h2
    have hWnn : 0 ≤ (img.width : ℚ) *
        Capture.minScale img.width img.height maxW maxH :=
      mul_nonneg (le_of_lt hWQ) hs0
    have hHnn : 0 ≤ (img.height : ℚ) *
        Capture.minScale img.width img.height maxW maxH :=
      mul_nonneg (le_of_lt hHQ) hs0
    have hWcast : (((⌊(img.width : ℚ) *
        Capture.minScale img.width img.height maxW maxH⌋).toNat : ℕ) : ℚ) =
        ((⌊(img.width : ℚ) *
          Capture.minScale img.width img.height maxW maxH⌋ : ℤ) : ℚ) := by
      have := Int.toNat_of_nonneg (Int.floor_nonneg.mpr hWnn)
      exact_mod_cast congrArg (fun z : ℤ => (z : ℚ)) this
    have hHcast : (((⌊(img.height : ℚ) *
        Capture.minScale img.width img.height maxW maxH⌋).toNat : ℕ) : ℚ) =
        ((⌊(img.height : ℚ) *
          Capture.minScale img.width img.height maxW maxH⌋ : ℤ) : ℚ) := by
      have := Int.toNat_of_nonneg (Int.floor_nonneg.mpr hHnn)
      exact_mod_cast congrArg (fun z : ℤ => (z : ℚ)) this
    refine ⟨?_, ?_, hwidth, hheight, ?_, ?_, ?_, ?_⟩
    · rw [hwidth]; exact toNat_floor_le_of_le _ _ hWmul
    · rw [hheight]; exact toNat_floor_le_of_le _ _ hHmul
    · rw [hwidth, hWcast]; exact Int.sub_one_lt_floor _
    · rw [hwidth, hWcast]; exact Int.floor_le _
    · rw [hheight, hHcast]; exact Int.sub_one_lt_floor _
    · rw [hheight, hHcast]; exact Int.floor_le _
  · unfold Capture.resizeImage
    by_cases hz : maxW = 0 ∨ maxH = 0
    · rw [if_pos hz]
    · have hp : img.width ≤ maxW ∧ img.height ≤ maxH := by tauto
      rw [if_neg hz, if_pos hp]
  · have h1 : ¬ maxW = 0 := by omega
    have h2 : ¬ img.width ≤ maxW := by omega
    constructor
    · simp [CaptureAssistant.resize, CaptureAssistant.resizeImageToDims, h1, h2]
    · simp [CaptureAssistant.resize, CaptureAssistant.resizeImageToDims, h1, h2]

/-- Counterexample to C5 as stated: the internal/capture `resize` of a
2000x2000 image under caps `max_width = 1280`, `max_height = 720` yields
height 1280, which exceeds the 720-pixel height cap the claim promises. -/
theorem resize_ignores_height_cap_cex :
    (CaptureAssistant.resize 1280 imgSquare).height = 1280 ∧ ¬ (1280 ≤ 720) := by
  constructor
  · simp only [CaptureAssistant.resize, CaptureAssistant.resizeImageToDims,
      imgSquare]
    norm_num
    rfl
  · decide

/-- Witness for C5 (amended) on a concrete 200x100 image with caps
(100, 90): the resized width fits the cap. -/
theorem resizeImage_dimension_bounds_witness :
    0 < (100 : Nat) ∧ (Capture.resizeImage imgSample 100 90).width ≤ 100 :=
  ⟨by decide,
   ((resizeImage_dimension_bounds imgSample 100 90 (by decide) (by decide)).1
     (by decide) (by decide) (Or.inl (by decide))).1⟩
